import Mathlib

/-!
# getDDSMNamesAndConvertToLJPEG1: directory scan and batch invocation

A shallow embedding of `getDDSMNamesAndConvertToLJPEG1.cpp`.

Modelling conventions.

* `Str` is the content of a `std::string` or of a NUL-terminated C string
  (`argv[i]`, `d_name`), one `Char` per byte, the terminator not included.
  Every string of the program is built from C strings, so none holds an
  embedded NUL and `c_str()` is the identity on the content.
* `size_t` is 64 bits wide; `std::string::npos` is `2^64 - 1`.
* The environment is explicit: `World.opendir` answers `opendir` (the entries
  in `readdir` order, or `none` for a NULL handle) and `World.status` gives
  the exit status of every call of `system`.
* Effects are recorded as a list of `Event`s; what the C++ standard leaves
  undefined ends a run with `Outcome.undefined`.
* `int count` is a natural number: the loop would have to run `2^31` times to
  overflow it.
-/

namespace DDSM

/-- Content of a `std::string` / C string, one `Char` per byte. -/
abbrev Str := List Char

/-! ## `<dirent.h>` -/

/-- Type code of `d_type` (glibc and BSD `<dirent.h>`): type not known. -/
def DT_UNKNOWN : Nat := 0
/-- Type code of a named pipe. -/
def DT_FIFO : Nat := 1
/-- Type code of a character device. -/
def DT_CHR : Nat := 2
/-- Type code of a directory. -/
def DT_DIR : Nat := 4
/-- Type code of a block device. -/
def DT_BLK : Nat := 6
/-- Type code of a regular file. -/
def DT_REG : Nat := 8
/-- Type code of a symbolic link. -/
def DT_LNK : Nat := 10
/-- Type code of a socket. -/
def DT_SOCK : Nat := 12

/-- Width of `size_t` in bits. -/
def SIZE_WIDTH : Nat := 64

/-- The value `std::string::npos`, the largest `size_t`. -/
def npos : Nat := 2 ^ SIZE_WIDTH - 1

/-- A directory entry as `readdir` returns it: the type code and the name.
The name is a C string held in memory, so it is shorter than `npos`. -/
structure dirent where
  d_type : Nat
  d_name : Str
  d_name_len : d_name.length < npos

/-! ## libc / libstdc++ primitives used by the program -/

/-- The function `tolower` of `<ctype.h>` in the "C" locale (the program never
calls `setlocale`): the 26 upper-case ASCII letters move to lower case, every
other byte is unchanged. -/
def tolower (c : Char) : Char :=
  if 'A'.toNat ≤ c.toNat ∧ c.toNat ≤ 'Z'.toNat then Char.ofNat (c.toNat + 32) else c

/-- Index of the last occurrence of `c`, if any. -/
def lastIndexOf? (c : Char) : Str → Option Nat
  | [] => none
  | x :: xs =>
    match lastIndexOf? c xs with
    | some i => some (i + 1)
    | none => if x = c then some 0 else none

/-- The call `s.find_last_of(".")` with a one-character set: the index of the
last occurrence of the character, `npos` when there is none. -/
def find_last_of (s : Str) (c : Char) : Nat :=
  match lastIndexOf? c s with
  | some i => i
  | none => npos

/-- The call `s.substr(pos)`: the tail from `pos`; `none` stands for the
`std::out_of_range` thrown when `pos > s.size()`. -/
def substr (s : Str) (pos : Nat) : Option Str :=
  if pos ≤ s.length then some (s.drop pos) else none

/-! ## Events and outcomes -/

/-- Observable actions of the program. -/
inductive Event where
  /-- Text written by one `printf` call, already formatted. -/
  | printf (text : Str)
  /-- One `cout << text` of a string. -/
  | cout (text : Str)
  /-- One `cout << n` of an `int`. -/
  | coutInt (n : Nat)
  /-- One `cout << endl`. -/
  | endl
  /-- A call of `opendir`. -/
  | opendir (name : Str)
  /-- A call of `closedir`. -/
  | closedir
  /-- A read of `argv[i]`. -/
  | argvRead (i : Nat)
  /-- A call of `system(command)` and the status it returned. -/
  | system (command : Str) (status : Int)
  deriving DecidableEq

/-- How a run of `main` ends. -/
inductive Outcome where
  /-- The function `main` returned this exit code. -/
  | returned (code : Int)
  /-- An exception left `main` uncaught. -/
  | uncaught
  /-- The run reached undefined behaviour. -/
  | undefined
  deriving DecidableEq

/-- The environment of a run. -/
structure World where
  /-- Result of `opendir`: the entries in `readdir` order, `none` for NULL. -/
  opendir : Str → Option (List dirent)
  /-- Exit status of the `i`-th call of `system` (counted from 0). -/
  status : Nat → Int

/-- A run of `main`: what it did and how it ended. -/
structure Run where
  trace : List Event
  outcome : Outcome

/-! ## The program -/

/-- Source lines 55-61: `toLowerCase` appends `tolower` of every character to
an initially empty string. -/
def toLowerCase (s : Str) : Str :=
  s.foldl (fun t c => t ++ [tolower c]) []

/-- Source lines 69-83: the `readdir` loop of `getFilesInDirectory`, run over
the entries still to be read, carrying `fileNames` and the output so far.
`none` stands for an exception thrown by `substr`. -/
def readdirLoop (dirName : Str) (validExtensions : List Str) :
    List dirent → List Str × List Event → Option (List Str × List Event)
  | [], st => some st
  | ep :: rest, (fileNames, out) =>
    if ep.d_type &&& DT_DIR ≠ 0 then
      readdirLoop dirName validExtensions rest (fileNames, out)
    else
      let extensionLocation := find_last_of ep.d_name '.'
      match substr ep.d_name ((extensionLocation + 1) % 2 ^ SIZE_WIDTH) with
      | none => none
      | some sub =>
        let tempExt := toLowerCase sub
        if tempExt ∈ validExtensions then
          readdirLoop dirName validExtensions rest
            (fileNames ++ [dirName ++ ep.d_name],
             out ++ [Event.printf ("Found matching data file '".toList ++ ep.d_name ++ "'\n".toList)])
        else
          readdirLoop dirName validExtensions rest
            (fileNames,
             out ++ [Event.printf ("Found file does not match required file type, skipping: '".toList
                      ++ ep.d_name ++ "'\n".toList)])

/-- Source lines 63-89: `getFilesInDirectory`. The result is the final value of
the reference parameter `fileNames` and the events of the call. -/
def getFilesInDirectory (w : World) (dirName : Str) (fileNames : List Str)
    (validExtensions : List Str) : Option (List Str × List Event) :=
  let out := [Event.printf ("Opening directory ".toList ++ dirName ++ "\n".toList),
              Event.opendir dirName]
  match w.opendir dirName with
  | some entries =>
    match readdirLoop dirName validExtensions entries (fileNames, out) with
    | some (names, out1) => some (names, out1 ++ [Event.closedir])
    | none => none
  | none =>
    some (fileNames, out ++ [Event.printf ("Error opening directory '".toList ++ dirName ++ "'!\n".toList)])

/-- Source lines 91-94: the two `cout` writes of `printHelp`. -/
def printHelp : List Event :=
  [Event.cout "--help\n".toList,
   Event.cout "getDDSMNamesAndConvertToLJPEG1 <LJPEG_images_directory_name>".toList]

/-- Size of `char command[100]` (source line 110). -/
def commandSize : Nat := 100

/-- The literal part of the format `"./jpeg -d -s %s"` (source line 114). -/
def commandPrefix : Str := "./jpeg -d -s ".toList

/-- Bytes that `sprintf(command, "./jpeg -d -s %s", filename.c_str())` stores:
the formatted text and the terminating NUL. -/
def sprintfBytes (filename : Str) : Str :=
  commandPrefix ++ filename ++ ['\x00']

/-- Source line 114: the content of `command` after the `sprintf`, `none` when
the stored bytes do not fit the array (a write past its end). -/
def sprintfCommand (filename : Str) : Option Str :=
  if (sprintfBytes filename).length ≤ commandSize then some (commandPrefix ++ filename) else none

/-- Source lines 111-122: the `for` loop over `LJPEGImageNames` from the
iterator position on, then the final report and `return 0`. -/
def invokeLoop (w : World) : List Str → Nat → List Event → Run
  | [], count, out =>
    { trace := out ++ [Event.endl, Event.endl,
                       Event.cout "Number of Images Decompressed to LJPEG1 -> ".toList,
                       Event.coutInt count, Event.endl,
                       Event.cout "End of program".toList, Event.endl],
      outcome := Outcome.returned 0 }
  | filename :: rest, count, out =>
    let out1 := out ++ [Event.cout filename, Event.endl]
    match sprintfCommand filename with
    | none => { trace := out1, outcome := Outcome.undefined }
    | some command =>
      invokeLoop w rest (count + 1)
        (out1 ++ [Event.endl, Event.endl, Event.system command (w.status count),
                  Event.endl, Event.endl,
                  Event.cout "Calling JPEG program using ->".toList, Event.cout filename,
                  Event.cout " file".toList])

/-- Source lines 96-123: `main`, with `argv[0..argc-1]` given as a list. The
statement `exit;` on line 101 names the function without calling it and has
no effect, so control continues on line 103. Reading `argv[1]` when
`argc < 2` gives no string (a null pointer for `argc = 1`): undefined
behaviour. -/
def main (w : World) (argv : List Str) : Run :=
  let out0 : List Event :=
    if argv.length < 2 then [Event.cout "No arguments supplied!".toList] ++ printHelp else []
  let out1 := out0 ++ [Event.argvRead 1]
  match argv.get? 1 with
  | none => { trace := out1, outcome := Outcome.undefined }
  | some posSamplesDir =>
    let LJPEGImageNames : List Str := []
    let validExtensions : List Str := [] ++ ["ljpeg".toList]
    match getFilesInDirectory w posSamplesDir LJPEGImageNames validExtensions with
    | none => { trace := out1, outcome := Outcome.uncaught }
    | some (names, out2) => invokeLoop w names 0 (out1 ++ out2)

/-! ## Observations on a trace -/

/-- The commands passed to `system`, in order. -/
def systemCommands : List Event → List Str
  | [] => []
  | Event.system command _ :: rest => command :: systemCommands rest
  | _ :: rest => systemCommands rest

/-- The integers written to `cout`, in order. -/
def reportedCounts : List Event → List Nat
  | [] => []
  | Event.coutInt n :: rest => n :: reportedCounts rest
  | _ :: rest => reportedCounts rest

/-- The indices at which `argv` was read, in order. -/
def argvReads : List Event → List Nat
  | [] => []
  | Event.argvRead i :: rest => i :: argvReads rest
  | _ :: rest => argvReads rest

/-- The directories passed to `opendir`, in order. -/
def opendirCalls : List Event → List Str
  | [] => []
  | Event.opendir d :: rest => d :: opendirCalls rest
  | _ :: rest => opendirCalls rest

/-! ## Specification-side vocabulary -/

/-- The extension as the specification words it: "the substring following the
last '.'" of the name, that is its longest suffix without a '.'. -/
def afterLastDot (name : Str) : Str :=
  (name.reverse.takeWhile (fun c => c != '.')).reverse

/-- The test of source lines 71-77 on one entry, the extension taken in the
specification's sense: the entry passes the `d_type & DT_DIR` check and its
lower-cased extension is in the list. -/
def accepts (validExtensions : List Str) (ep : dirent) : Bool :=
  decide (ep.d_type &&& DT_DIR = 0) && decide (toLowerCase (afterLastDot ep.d_name) ∈ validExtensions)

/-- A one-file world: `opendir` succeeds with the given entries on every
path. -/
def worldOf (entries : List dirent) : World :=
  { opendir := fun _ => some entries, status := fun _ => 0 }

/-- Entry with a short literal name. -/
def mkEntry (t : Nat) (name : Str) (h : name.length < npos) : dirent :=
  { d_type := t, d_name := name, d_name_len := h }

/-- Scenario 1 of the specification: `a.ljpeg`, `b.LJPEG` and `c.png`, all
regular files. -/
def scenario1 : List dirent :=
  [mkEntry DT_REG "a.ljpeg".toList (by decide),
   mkEntry DT_REG "b.LJPEG".toList (by decide),
   mkEntry DT_REG "c.png".toList (by decide)]

/-- Scenario 1 with the letter case of every name changed. -/
def scenario1Recased : List dirent :=
  [mkEntry DT_REG "A.LJPEG".toList (by decide),
   mkEntry DT_REG "b.LjPeg".toList (by decide),
   mkEntry DT_REG "C.PNG".toList (by decide)]

/-- Scenario 1 as `readdir` lists it, with the entries `.` and `..`. -/
def scenario1Listing : List dirent :=
  [mkEntry DT_DIR ".".toList (by decide), mkEntry DT_DIR "..".toList (by decide)] ++ scenario1

/-- Two non-directory entries whose names differ in letter case only: the
regular file `a.ljpeg` and the socket `A.LJPEG`. -/
def regularAndSocket : List dirent :=
  [mkEntry DT_REG "a.ljpeg".toList (by decide),
   mkEntry DT_SOCK "A.LJPEG".toList (by decide)]

/-- A directory with a sub-directory among the files. -/
def mixedDirectory : List dirent :=
  [mkEntry DT_DIR ".".toList (by decide),
   mkEntry DT_REG "a.ljpeg".toList (by decide),
   mkEntry DT_DIR "old.ljpeg".toList (by decide),
   mkEntry DT_REG "notes.txt".toList (by decide),
   mkEntry DT_REG "B_0001.LEFT_CC.LJPEG".toList (by decide)]

/-- A file name of 206 bytes: 200 times `a`, then `.ljpeg`. -/
def longName : Str := List.replicate 200 'a' ++ ".ljpeg".toList

/-- A regular file named `longName`. -/
def longEntry : dirent :=
  { d_type := DT_REG, d_name := longName,
    d_name_len := by
      unfold longName
      rw [List.length_append, List.length_replicate]
      decide }

/-- The directory of the long name between two short ones. -/
def crowdedDirectory : List dirent :=
  [mkEntry DT_REG "a.ljpeg".toList (by decide), longEntry,
   mkEntry DT_REG "b.LJPEG".toList (by decide)]

/-- A world in which no directory can be opened. -/
def closedWorld : World :=
  { opendir := fun _ => none, status := fun _ => 0 }

/-! ## Library facts -/

theorem toLowerCase_foldl (s : Str) (acc : Str) :
    s.foldl (fun t c => t ++ [tolower c]) acc = acc ++ s.map tolower := by
  induction s generalizing acc with
  | nil => simp
  | cons x xs ih => simp [List.foldl_cons, ih]

theorem toLowerCase_eq_map (s : Str) : toLowerCase s = s.map tolower := by
  simp [toLowerCase, toLowerCase_foldl]

theorem ofNat_add_32_ne_dot (n : Nat) (h1 : 65 ≤ n) (h2 : n ≤ 90) :
    Char.ofNat (n + 32) ≠ '.' := by
  interval_cases n <;> decide

theorem tolower_eq_dot (c : Char) : tolower c = '.' ↔ c = '.' := by
  constructor
  · intro h
    unfold tolower at h
    split at h
    · rename_i hc
      exact absurd h (ofNat_add_32_ne_dot c.toNat hc.1 hc.2)
    · exact h
  · intro h
    subst h
    decide

theorem takeWhile_append_of_exists_neg (p : Char → Bool) (ys zs : Str)
    (h : ∃ y ∈ ys, p y = false) : (ys ++ zs).takeWhile p = ys.takeWhile p := by
  induction ys with
  | nil => simp at h
  | cons y ys ih =>
    cases hy : p y with
    | false => simp [List.takeWhile_cons, hy]
    | true =>
      obtain ⟨a, ha, hpa⟩ := h
      have hmem : a ∈ ys := by
        rcases List.mem_cons.mp ha with rfl | h'
        · rw [hy] at hpa; cases hpa
        · exact h'
      simp [List.takeWhile_cons, hy, ih ⟨a, hmem, hpa⟩]

theorem afterLastDot_cons_of_mem (x : Char) (xs : Str) (h : '.' ∈ xs) :
    afterLastDot (x :: xs) = afterLastDot xs := by
  unfold afterLastDot
  rw [List.reverse_cons, takeWhile_append_of_exists_neg]
  exact ⟨'.', List.mem_reverse.mpr h, by decide⟩

theorem afterLastDot_of_not_mem (s : Str) (h : '.' ∉ s) : afterLastDot s = s := by
  unfold afterLastDot
  have : s.reverse.takeWhile (fun c => c != '.') = s.reverse := by
    rw [List.takeWhile_eq_self_iff]
    intro x hx
    have hne : x ≠ '.' := fun e => h (e ▸ List.mem_reverse.mp hx)
    simpa using hne
  rw [this, List.reverse_reverse]

theorem lastIndexOf?_eq_none (c : Char) (s : Str) : lastIndexOf? c s = none ↔ c ∉ s := by
  induction s with
  | nil => simp [lastIndexOf?]
  | cons x xs ih =>
    unfold lastIndexOf?
    cases hr : lastIndexOf? c xs with
    | some i =>
      have : c ∈ xs := by
        by_contra hc
        rw [ih.mpr hc] at hr
        cases hr
      simp [this]
    | none =>
      have hc : c ∉ xs := ih.mp hr
      by_cases hx : x = c
      · simp [hx]
      · have hx2 : ¬ c = x := fun e => hx e.symm
        simp [hx, hx2, hc]

theorem lastIndexOf?_lt (c : Char) (s : Str) (i : Nat) (h : lastIndexOf? c s = some i) :
    i < s.length := by
  induction s generalizing i with
  | nil => simp [lastIndexOf?] at h
  | cons x xs ih =>
    unfold lastIndexOf? at h
    cases hr : lastIndexOf? c xs with
    | some j =>
      rw [hr] at h
      have := ih j hr
      simp at h
      simp
      omega
    | none =>
      rw [hr] at h
      by_cases hx : x = c
      · simp [hx] at h
        simp
        omega
      · simp [hx] at h

/-- After the index that `find_last_of` finds lies exactly the extension in
the specification's sense. -/
theorem drop_lastIndexOf? (s : Str) (i : Nat) (h : lastIndexOf? '.' s = some i) :
    s.drop (i + 1) = afterLastDot s := by
  induction s generalizing i with
  | nil => simp [lastIndexOf?] at h
  | cons x xs ih =>
    unfold lastIndexOf? at h
    cases hr : lastIndexOf? '.' xs with
    | some j =>
      rw [hr] at h
      simp at h
      subst h
      have hmem : '.' ∈ xs := by
        by_contra hc
        rw [(lastIndexOf?_eq_none '.' xs).mpr hc] at hr
        cases hr
      rw [afterLastDot_cons_of_mem x xs hmem, ← ih j hr]
      simp
    | none =>
      rw [hr] at h
      have hnot : '.' ∉ xs := (lastIndexOf?_eq_none '.' xs).mp hr
      by_cases hx : x = '.'
      · simp [hx] at h
        subst h
        subst hx
        unfold afterLastDot
        rw [List.reverse_cons]
        have h1 : (xs.reverse ++ ['.']).takeWhile (fun c => c != '.') = xs.reverse := by
          rw [List.takeWhile_append_of_pos]
          · simp
          · intro a ha
            have hne : a ≠ '.' := fun e => hnot (e ▸ List.mem_reverse.mp ha)
            simpa using hne
        rw [h1]
        simp
      · simp [hx] at h

/-- What the specification calls the extension really is the part after the
last '.': the name splits into a front, that '.', and a dot-free rest. -/
theorem afterLastDot_spec (s : Str) (h : '.' ∈ s) :
    ∃ front, s = front ++ '.' :: afterLastDot s ∧ '.' ∉ afterLastDot s := by
  unfold afterLastDot
  have hsplit := List.takeWhile_append_dropWhile (fun c : Char => c != '.') s.reverse
  have hnot : '.' ∉ (s.reverse.takeWhile (fun c => c != '.')).reverse := by
    intro hm
    have := List.mem_takeWhile_imp (List.mem_reverse.mp hm)
    simp at this
  cases hd : s.reverse.dropWhile (fun c : Char => c != '.') with
  | nil =>
    have hall := List.dropWhile_eq_nil_iff.mp hd '.' (List.mem_reverse.mpr h)
    simp at hall
  | cons y rest =>
    have hy : y = '.' := by
      have hh := List.head?_dropWhile_not (fun c : Char => c != '.') s.reverse
      rw [hd] at hh
      simpa using hh
    subst hy
    refine ⟨rest.reverse, ?_, hnot⟩
    rw [hd] at hsplit
    have hs : s = (s.reverse).reverse := (List.reverse_reverse s).symm
    conv_lhs => rw [hs, ← hsplit]
    simp

/-- Source lines 74-76 never throw: the argument of `substr` is in range, and
the substring is the longest dot-free suffix of the name (the whole name when
it has no '.', because `npos + 1` wraps to 0). -/
theorem substr_extension (name : Str) (hlen : name.length < npos) :
    substr name ((find_last_of name '.' + 1) % 2 ^ SIZE_WIDTH) = some (afterLastDot name) := by
  unfold find_last_of
  cases hr : lastIndexOf? '.' name with
  | some i =>
    have hi := lastIndexOf?_lt '.' name i hr
    have hsmall : (i + 1) % 2 ^ SIZE_WIDTH = i + 1 := by
      apply Nat.mod_eq_of_lt
      simp only [npos, SIZE_WIDTH] at hlen ⊢
      omega
    simp only [hsmall]
    unfold substr
    rw [if_pos (by omega), drop_lastIndexOf? name i hr]
  | none =>
    have hz : (npos + 1) % 2 ^ SIZE_WIDTH = 0 := by decide
    simp only [hz]
    unfold substr
    rw [if_pos (Nat.zero_le _), List.drop_zero,
      afterLastDot_of_not_mem name ((lastIndexOf?_eq_none '.' name).mp hr)]

theorem readdirLoop_names (d : Str) (A : List Str) (es : List dirent)
    (fn : List Str) (out : List Event) :
    ∃ out1, readdirLoop d A es (fn, out)
      = some (fn ++ (es.filter (accepts A)).map (fun e => d ++ e.d_name), out1) := by
  induction es generalizing fn out with
  | nil => exact ⟨out, by simp [readdirLoop]⟩
  | cons ep rest ih =>
    unfold readdirLoop
    by_cases hdir : ep.d_type &&& DT_DIR = 0
    · rw [if_neg (by simpa using hdir)]
      simp only [substr_extension ep.d_name ep.d_name_len]
      by_cases hext : toLowerCase (afterLastDot ep.d_name) ∈ A
      · rw [if_pos hext]
        obtain ⟨o, ho⟩ := ih (fn ++ [d ++ ep.d_name])
          (out ++ [Event.printf ("Found matching data file '".toList ++ ep.d_name ++ "'\n".toList)])
        refine ⟨o, ?_⟩
        rw [ho]
        simp [accepts, hdir, hext]
      · rw [if_neg hext]
        obtain ⟨o, ho⟩ := ih fn
          (out ++ [Event.printf ("Found file does not match required file type, skipping: '".toList
                      ++ ep.d_name ++ "'\n".toList)])
        refine ⟨o, ?_⟩
        rw [ho]
        simp [accepts, hdir, hext]
    · rw [if_pos hdir]
      obtain ⟨o, ho⟩ := ih fn out
      refine ⟨o, ?_⟩
      rw [ho]
      simp [accepts, hdir]

theorem getFilesInDirectory_of_open (w : World) (d : Str) (fn : List Str) (A : List Str)
    (es : List dirent) (h : w.opendir d = some es) :
    ∃ out, getFilesInDirectory w d fn A
      = some (fn ++ (es.filter (accepts A)).map (fun e => d ++ e.d_name), out) := by
  unfold getFilesInDirectory
  simp only [h]
  obtain ⟨o, ho⟩ := readdirLoop_names d A es fn
    [Event.printf ("Opening directory ".toList ++ d ++ "\n".toList), Event.opendir d]
  exact ⟨o ++ [Event.closedir], by rw [ho]⟩

theorem getFilesInDirectory_of_fail (w : World) (d : Str) (fn : List Str) (A : List Str)
    (h : w.opendir d = none) :
    getFilesInDirectory w d fn A
      = some (fn, [Event.printf ("Opening directory ".toList ++ d ++ "\n".toList),
                   Event.opendir d,
                   Event.printf ("Error opening directory '".toList ++ d ++ "'!\n".toList)]) := by
  unfold getFilesInDirectory
  simp only [h]
  rfl

/-! ## The invocation loop and `main` -/

theorem systemCommands_append (a b : List Event) :
    systemCommands (a ++ b) = systemCommands a ++ systemCommands b := by
  induction a with
  | nil => rfl
  | cons e rest ih => cases e <;> simp [systemCommands, ih]

theorem reportedCounts_append (a b : List Event) :
    reportedCounts (a ++ b) = reportedCounts a ++ reportedCounts b := by
  induction a with
  | nil => rfl
  | cons e rest ih => cases e <;> simp [reportedCounts, ih]

theorem sprintfBytes_length (p : Str) : (sprintfBytes p).length = 13 + p.length + 1 := by
  simp only [sprintfBytes, commandPrefix, List.length_append, List.length_cons, List.length_nil,
    String.toList]

theorem sprintfCommand_of_fit (p : Str) (h : (sprintfBytes p).length ≤ commandSize) :
    sprintfCommand p = some (commandPrefix ++ p) := by
  unfold sprintfCommand
  rw [if_pos h]

/-- The scan writes to the terminal and touches the directory, nothing else. -/
theorem readdirLoop_quiet (d : Str) (A : List Str) (es : List dirent)
    (fn : List Str) (out : List Event) (fn1 : List Str) (out1 : List Event)
    (h : readdirLoop d A es (fn, out) = some (fn1, out1)) :
    systemCommands out1 = systemCommands out ∧ reportedCounts out1 = reportedCounts out := by
  induction es generalizing fn out with
  | nil =>
    simp only [readdirLoop, Option.some.injEq, Prod.mk.injEq] at h
    rw [h.2]
    exact ⟨rfl, rfl⟩
  | cons ep rest ih =>
    unfold readdirLoop at h
    split at h
    · exact ih fn out h
    · simp only [substr_extension ep.d_name ep.d_name_len] at h
      split at h
      · have := ih _ _ h
        simpa [systemCommands_append, reportedCounts_append, systemCommands, reportedCounts]
          using this
      · have := ih _ _ h
        simpa [systemCommands_append, reportedCounts_append, systemCommands, reportedCounts]
          using this

theorem getFilesInDirectory_quiet (w : World) (d : Str) (fn : List Str) (A : List Str)
    (fn1 : List Str) (out1 : List Event)
    (h : getFilesInDirectory w d fn A = some (fn1, out1)) :
    systemCommands out1 = [] ∧ reportedCounts out1 = [] := by
  unfold getFilesInDirectory at h
  have hinit : systemCommands [Event.printf ("Opening directory ".toList ++ d ++ "\n".toList),
        Event.opendir d] = [] ∧
      reportedCounts [Event.printf ("Opening directory ".toList ++ d ++ "\n".toList),
        Event.opendir d] = [] := ⟨rfl, rfl⟩
  generalize [Event.printf ("Opening directory ".toList ++ d ++ "\n".toList),
    Event.opendir d] = init at h hinit
  cases ho : w.opendir d with
  | none =>
    rw [ho] at h
    simp only [Option.some.injEq, Prod.mk.injEq] at h
    rw [← h.2, systemCommands_append, reportedCounts_append, hinit.1, hinit.2]
    exact ⟨rfl, rfl⟩
  | some es =>
    rw [ho] at h
    dsimp only at h
    cases hl : readdirLoop d A es (fn, init) with
    | none =>
      rw [hl] at h
      cases h
    | some r =>
      obtain ⟨n2, o2⟩ := r
      rw [hl] at h
      simp only [Option.some.injEq, Prod.mk.injEq] at h
      have hq := readdirLoop_quiet d A es fn init n2 o2 hl
      rw [← h.2, systemCommands_append, reportedCounts_append, hq.1, hq.2, hinit.1, hinit.2]
      exact ⟨rfl, rfl⟩

/-- When every command fits the buffer the loop runs to the end: one `system`
call per path, the count equal to the number of paths, exit code 0. -/
theorem invokeLoop_of_fit (w : World) (names : List Str) (count : Nat) (out : List Event)
    (hfit : ∀ p ∈ names, (sprintfBytes p).length ≤ commandSize) :
    (invokeLoop w names count out).outcome = Outcome.returned 0 ∧
    systemCommands (invokeLoop w names count out).trace
      = systemCommands out ++ names.map (fun p => commandPrefix ++ p) ∧
    reportedCounts (invokeLoop w names count out).trace
      = reportedCounts out ++ [count + names.length] := by
  induction names generalizing count out with
  | nil =>
    simp [invokeLoop, systemCommands_append, reportedCounts_append, systemCommands,
      reportedCounts]
  | cons p rest ih =>
    have hp := sprintfCommand_of_fit p (hfit p (List.mem_cons_self p rest))
    have hrest : ∀ q ∈ rest, (sprintfBytes q).length ≤ commandSize :=
      fun q hq => hfit q (List.mem_cons_of_mem p hq)
    unfold invokeLoop
    simp only [hp]
    obtain ⟨h1, h2, h3⟩ := ih (count + 1)
      (out ++ [Event.cout p, Event.endl] ++
        [Event.endl, Event.endl, Event.system (commandPrefix ++ p) (w.status count),
         Event.endl, Event.endl,
         Event.cout "Calling JPEG program using ->".toList, Event.cout p,
         Event.cout " file".toList]) hrest
    refine ⟨h1, ?_, ?_⟩
    · rw [h2]
      simp [systemCommands_append, systemCommands]
    · rw [h3]
      simp [reportedCounts_append, reportedCounts]
      omega

theorem main_of_directory (w : World) (argv : List Str) (d : Str) (names : List Str)
    (out : List Event) (hargv : argv.get? 1 = some d)
    (hscan : getFilesInDirectory w d [] ["ljpeg".toList] = some (names, out)) :
    main w argv = invokeLoop w names 0 ([Event.argvRead 1] ++ out) := by
  have hlen : ¬ argv.length < 2 := by
    intro hlt
    have : argv.get? 1 = none := List.get?_eq_none.mpr (by omega)
    rw [this] at hargv
    cases hargv
  unfold main
  simp only [hargv, if_neg hlen, List.nil_append, hscan]

/-! ## Case folding and the extension -/

theorem toLowerCase_afterLastDot (n : Str) :
    toLowerCase (afterLastDot n) = afterLastDot (toLowerCase n) := by
  simp only [toLowerCase_eq_map, afterLastDot]
  rw [← List.map_reverse, List.takeWhile_map, List.map_reverse]
  have hp : ((fun c : Char => c != '.') ∘ tolower) = (fun c : Char => c != '.') := by
    funext c
    by_cases hc : c = '.'
    · subst hc
      decide
    · have h1 : tolower c ≠ '.' := fun e => hc ((tolower_eq_dot c).mp e)
      simp [bne, hc, h1]
  rw [hp]

theorem accepts_congr (A : List Str) (e1 e2 : dirent)
    (ht : e1.d_type &&& DT_DIR = 0 ↔ e2.d_type &&& DT_DIR = 0)
    (hn : toLowerCase e1.d_name = toLowerCase e2.d_name) : accepts A e1 = accepts A e2 := by
  unfold accepts
  rw [decide_eq_decide.mpr ht, toLowerCase_afterLastDot, toLowerCase_afterLastDot, hn]

theorem filter_accepts_length (A : List Str) (es1 es2 : List dirent)
    (h : List.Forall₂ (fun e1 e2 : dirent =>
      (e1.d_type &&& DT_DIR = 0 ↔ e2.d_type &&& DT_DIR = 0) ∧
      toLowerCase e1.d_name = toLowerCase e2.d_name) es1 es2) :
    (es1.filter (accepts A)).length = (es2.filter (accepts A)).length := by
  induction h with
  | nil => rfl
  | cons hab _ ih =>
    rw [List.filter_cons, List.filter_cons, accepts_congr A _ _ hab.1 hab.2]
    split <;> simp [ih]

/-- On regular files and directories the `d_type & DT_DIR` check is the test
"not a directory". -/
theorem accepts_regular_or_directory (A : List Str) (e : dirent)
    (h : e.d_type = DT_REG ∨ e.d_type = DT_DIR) :
    accepts A e = (decide (e.d_type ≠ DT_DIR) &&
      decide (toLowerCase (afterLastDot e.d_name) ∈ A)) := by
  unfold accepts
  have h8 : DT_REG &&& DT_DIR = 0 := by decide
  have h4 : DT_DIR ≠ 0 := by decide
  have hne : DT_REG ≠ DT_DIR := by decide
  rcases h with h | h <;> rw [h]
  · simp [h8, hne]
  · simp [h4]

/-! ## The claims -/

/-- C1: for a directory that opens, whose entries are regular files or
directories with a '.' in every name, `getFilesInDirectory` started on an
empty list returns exactly the strings `d ++ name`, in the order of the
entries, of the non-directory entries whose lower-cased extension (the part
after the last '.') is in the list of valid extensions. The list of valid
extensions is arbitrary, so the statement covers every list of lower-case
extensions. -/
theorem getFilesInDirectory_lists_matching_files (w : World) (d : Str) (A : List Str)
    (es : List dirent) (hopen : w.opendir d = some es)
    (hes : ∀ e ∈ es, (e.d_type = DT_REG ∨ e.d_type = DT_DIR) ∧ '.' ∈ e.d_name) :
    (getFilesInDirectory w d [] A).map Prod.fst
      = some ((es.filter (fun e => decide (e.d_type ≠ DT_DIR) &&
            decide (toLowerCase (afterLastDot e.d_name) ∈ A))).map (fun e => d ++ e.d_name)) := by
  obtain ⟨out, hout⟩ := getFilesInDirectory_of_open w d [] A es hopen
  rw [hout]
  have hf : es.filter (accepts A) = es.filter (fun e => decide (e.d_type ≠ DT_DIR) &&
      decide (toLowerCase (afterLastDot e.d_name) ∈ A)) :=
    List.filter_congr (fun e he => accepts_regular_or_directory A e (hes e he).1)
  simp [hf]

/-- C1 at a directory holding `.`, `a.ljpeg`, a sub-directory `old.ljpeg`,
`notes.txt` and `B_0001.LEFT_CC.LJPEG`: the two files with extension ljpeg are
returned, in that order, prefixed with `/data/`. -/
theorem getFilesInDirectory_lists_matching_files_witness :
    (worldOf mixedDirectory).opendir "/data/".toList = some mixedDirectory ∧
    (∀ e ∈ mixedDirectory, (e.d_type = DT_REG ∨ e.d_type = DT_DIR) ∧ '.' ∈ e.d_name) ∧
    (getFilesInDirectory (worldOf mixedDirectory) "/data/".toList [] ["ljpeg".toList]).map Prod.fst
      = some ["/data/a.ljpeg".toList, "/data/B_0001.LEFT_CC.LJPEG".toList] :=
  ⟨rfl, by decide,
   (getFilesInDirectory_lists_matching_files (worldOf mixedDirectory) "/data/".toList
      ["ljpeg".toList] mixedDirectory rfl (by decide)).trans (by decide)⟩

/-- Letter case alone never changes the outcome: two entries that fare alike
in the `d_type & DT_DIR` check (in particular two entries of one type) and
whose names are equal after `toLowerCase` are matched or skipped together, and
a directory re-cased entry by entry yields the same number of matches. -/
theorem recasing_keeps_matches (w1 w2 : World) (d : Str) (A : List Str)
    (es1 es2 : List dirent) (h1 : w1.opendir d = some es1) (h2 : w2.opendir d = some es2)
    (hrel : List.Forall₂ (fun e1 e2 : dirent =>
      (e1.d_type &&& DT_DIR = 0 ↔ e2.d_type &&& DT_DIR = 0) ∧
      toLowerCase e1.d_name = toLowerCase e2.d_name) es1 es2) :
    ∃ names1 out1 names2 out2,
      getFilesInDirectory w1 d [] A = some (names1, out1) ∧
      getFilesInDirectory w2 d [] A = some (names2, out2) ∧
      names1.length = names2.length := by
  obtain ⟨o1, ho1⟩ := getFilesInDirectory_of_open w1 d [] A es1 h1
  obtain ⟨o2, ho2⟩ := getFilesInDirectory_of_open w2 d [] A es2 h2
  refine ⟨_, o1, _, o2, ho1, ho2, ?_⟩
  simp [filter_accepts_length A es1 es2 hrel]

/-- Scenario 1 in any iteration order, the entries `.` and `..` included:
with the allow-list `ljpeg` the scan of `/data/` returns `/data/a.ljpeg` and
`/data/b.LJPEG`, up to order. -/
theorem scenario1_in_any_order (w : World) (es : List dirent)
    (hperm : es.Perm scenario1Listing) (hopen : w.opendir "/data/".toList = some es) :
    ∃ names out,
      getFilesInDirectory w "/data/".toList [] ["ljpeg".toList] = some (names, out) ∧
      names.Perm ["/data/a.ljpeg".toList, "/data/b.LJPEG".toList] := by
  obtain ⟨o, ho⟩ := getFilesInDirectory_of_open w "/data/".toList [] ["ljpeg".toList] es hopen
  refine ⟨_, o, ho, ?_⟩
  have hp := (hperm.filter (accepts ["ljpeg".toList])).map
    (fun e : dirent => "/data/".toList ++ e.d_name)
  have hs : (scenario1Listing.filter (accepts ["ljpeg".toList])).map
      (fun e : dirent => "/data/".toList ++ e.d_name)
      = ["/data/a.ljpeg".toList, "/data/b.LJPEG".toList] := by decide
  rw [hs] at hp
  simpa using hp

/-- C3, evaluated where it fails: the regular file `a.ljpeg` and the socket
`A.LJPEG` are two non-directory entries whose names are equal after
`toLowerCase`, yet with the allow-list `ljpeg` the scan of `/data/` matches
the first and skips the second, because `d_type & DT_DIR` is non-zero for a
socket (12 & 4); a directory holding both yields `/data/a.ljpeg` alone.
Between regular files the claim holds: scenario 1 and its re-cased copy give
two matches each. -/
theorem case_folded_names_split_by_type_check :
    DT_REG ≠ DT_DIR ∧ DT_SOCK ≠ DT_DIR ∧
    toLowerCase "a.ljpeg".toList = toLowerCase "A.LJPEG".toList ∧
    (getFilesInDirectory (worldOf [mkEntry DT_REG "a.ljpeg".toList (by decide)])
        "/data/".toList [] ["ljpeg".toList]).map Prod.fst = some ["/data/a.ljpeg".toList] ∧
    (getFilesInDirectory (worldOf [mkEntry DT_SOCK "A.LJPEG".toList (by decide)])
        "/data/".toList [] ["ljpeg".toList]).map Prod.fst = some [] ∧
    (getFilesInDirectory (worldOf [mkEntry DT_REG "A.LJPEG".toList (by decide)])
        "/data/".toList [] ["ljpeg".toList]).map Prod.fst = some ["/data/A.LJPEG".toList] ∧
    (getFilesInDirectory (worldOf regularAndSocket)
        "/data/".toList [] ["ljpeg".toList]).map Prod.fst = some ["/data/a.ljpeg".toList] ∧
    (getFilesInDirectory (worldOf scenario1)
        "/data/".toList [] ["ljpeg".toList]).map (fun r => r.1.length) = some 2 ∧
    (getFilesInDirectory (worldOf scenario1Recased)
        "/data/".toList [] ["ljpeg".toList]).map (fun r => r.1.length) = some 2 := by
  decide

/-- C4: when `opendir` gives no handle, `getFilesInDirectory` started on an
empty list returns the empty list (no exception), and a run of `main` on that
directory calls `system` zero times, reports the count 0 and returns 0. -/
theorem unopenable_directory_gives_no_files (w : World) (d : Str) (A : List Str)
    (argv : List Str) (hfail : w.opendir d = none) (hargv : argv.get? 1 = some d) :
    (getFilesInDirectory w d [] A).map Prod.fst = some [] ∧
    systemCommands (main w argv).trace = [] ∧
    reportedCounts (main w argv).trace = [0] ∧
    (main w argv).outcome = Outcome.returned 0 := by
  refine ⟨by rw [getFilesInDirectory_of_fail w d [] A hfail]; rfl, ?_⟩
  have hscan := getFilesInDirectory_of_fail w d [] ["ljpeg".toList] hfail
  rw [main_of_directory w argv d [] _ hargv hscan]
  exact ⟨rfl, rfl, rfl⟩

/-- C4 at the directory `/nowhere/` in a world where nothing opens. -/
theorem unopenable_directory_gives_no_files_witness :
    closedWorld.opendir "/nowhere/".toList = none ∧
    ["convert".toList, "/nowhere/".toList].get? 1 = some "/nowhere/".toList ∧
    (getFilesInDirectory closedWorld "/nowhere/".toList [] ["ljpeg".toList]).map Prod.fst
      = some [] ∧
    systemCommands (main closedWorld ["convert".toList, "/nowhere/".toList]).trace = [] ∧
    reportedCounts (main closedWorld ["convert".toList, "/nowhere/".toList]).trace = [0] ∧
    (main closedWorld ["convert".toList, "/nowhere/".toList]).outcome = Outcome.returned 0 :=
  ⟨rfl, rfl,
   unopenable_directory_gives_no_files closedWorld "/nowhere/".toList ["ljpeg".toList]
     ["convert".toList, "/nowhere/".toList] rfl rfl⟩

/-- C9: when every path of the matched sequence fits the command buffer, the
commands passed to `system` are, in the order of the paths and one per path,
the string `./jpeg -d -s ` followed by the unchanged path: for the loop of
`main` run on that sequence, and for `main` itself when the scan of its
directory argument returned the sequence. -/
theorem main_commands_are_jpeg_invocations (w : World) (names : List Str)
    (hfit : ∀ p ∈ names, (sprintfBytes p).length ≤ commandSize) :
    systemCommands (invokeLoop w names 0 []).trace
      = names.map (fun p => "./jpeg -d -s ".toList ++ p) ∧
    (∀ (argv : List Str) (d : Str) (out : List Event),
      argv.get? 1 = some d →
      getFilesInDirectory w d [] ["ljpeg".toList] = some (names, out) →
      systemCommands (main w argv).trace
        = names.map (fun p => "./jpeg -d -s ".toList ++ p)) := by
  constructor
  · rw [(invokeLoop_of_fit w names 0 [] hfit).2.1]
    rfl
  · intro argv d out hargv hscan
    rw [main_of_directory w argv d names out hargv hscan]
    have hq := getFilesInDirectory_quiet w d [] ["ljpeg".toList] names out hscan
    rw [(invokeLoop_of_fit w names 0 _ hfit).2.1, systemCommands_append, hq.1]
    rfl

/-- C9 at scenario 1: two commands, for `/data/a.ljpeg` then `/data/b.LJPEG`. -/
theorem main_commands_are_jpeg_invocations_witness :
    (∀ p ∈ ["/data/a.ljpeg".toList, "/data/b.LJPEG".toList],
      (sprintfBytes p).length ≤ commandSize) ∧
    systemCommands (main (worldOf scenario1) ["convert".toList, "/data/".toList]).trace
      = ["./jpeg -d -s /data/a.ljpeg".toList, "./jpeg -d -s /data/b.LJPEG".toList] :=
  ⟨by decide,
   ((main_commands_are_jpeg_invocations (worldOf scenario1)
      ["/data/a.ljpeg".toList, "/data/b.LJPEG".toList] (by decide)).2
      ["convert".toList, "/data/".toList] "/data/".toList
      ((getFilesInDirectory (worldOf scenario1) "/data/".toList [] ["ljpeg".toList]).get
        (by decide)).2
      rfl (by decide)).trans (by decide)⟩

/-- C10: the bytes that the `sprintf` stores for a path (the 13 bytes of
`./jpeg -d -s `, the path, one NUL) fit the 100-byte array `command` exactly
when the path has at most 86 bytes; and when every matched path has at most 86
bytes, every formatting step of the run stays inside the array and the run
ends by returning from `main`, not in undefined behaviour. -/
theorem command_fits_buffer_iff :
    commandPrefix.length = 13 ∧
    (∀ p : Str, (sprintfBytes p).length ≤ commandSize ↔ p.length ≤ 86) ∧
    (∀ (w : World) (argv : List Str) (d : Str) (names : List Str) (out : List Event),
        argv.get? 1 = some d →
        getFilesInDirectory w d [] ["ljpeg".toList] = some (names, out) →
        (∀ p ∈ names, p.length ≤ 86) →
        (∀ p ∈ names, (sprintfBytes p).length ≤ commandSize ∧
            sprintfCommand p = some (commandPrefix ++ p)) ∧
        (main w argv).outcome = Outcome.returned 0) := by
  have hiff : ∀ p : Str, (sprintfBytes p).length ≤ commandSize ↔ p.length ≤ 86 := by
    intro p
    rw [sprintfBytes_length]
    unfold commandSize
    omega
  refine ⟨by decide, hiff, ?_⟩
  intro w argv d names out hargv hscan hlen
  have hfit : ∀ p ∈ names, (sprintfBytes p).length ≤ commandSize :=
    fun p hp => (hiff p).mpr (hlen p hp)
  refine ⟨fun p hp => ⟨hfit p hp, sprintfCommand_of_fit p (hfit p hp)⟩, ?_⟩
  rw [main_of_directory w argv d names out hargv hscan]
  exact (invokeLoop_of_fit w names 0 _ hfit).1

/-- C10 at scenario 1, whose two matched paths have 13 bytes each. -/
theorem command_fits_buffer_iff_witness :
    (∀ p ∈ ["/data/a.ljpeg".toList, "/data/b.LJPEG".toList], p.length ≤ 86) ∧
    (∀ p ∈ ["/data/a.ljpeg".toList, "/data/b.LJPEG".toList],
        (sprintfBytes p).length ≤ commandSize ∧
        sprintfCommand p = some (commandPrefix ++ p)) ∧
    (main (worldOf scenario1) ["convert".toList, "/data/".toList]).outcome
      = Outcome.returned 0 :=
  ⟨by decide,
   command_fits_buffer_iff.2.2 (worldOf scenario1) ["convert".toList, "/data/".toList]
     "/data/".toList ["/data/a.ljpeg".toList, "/data/b.LJPEG".toList]
     ((getFilesInDirectory (worldOf scenario1) "/data/".toList [] ["ljpeg".toList]).get
        (by decide)).2
     rfl (by decide) (by decide)⟩

/-- C2, evaluated where it fails: a regular file named `ljpeg` has no '.', yet
with the allow-list `ljpeg` the scan of `/data/` returns `/data/ljpeg`,
because `npos + 1` wraps to 0 and the whole name is taken as the extension. A
file named `noext` is skipped only because `noext` is not in the list. -/
theorem dotless_name_matches_as_extension :
    '.' ∉ "ljpeg".toList ∧
    find_last_of "ljpeg".toList '.' = npos ∧
    (getFilesInDirectory (worldOf [mkEntry DT_REG "ljpeg".toList (by decide)])
        "/data/".toList [] ["ljpeg".toList]).map Prod.fst = some ["/data/ljpeg".toList] ∧
    (getFilesInDirectory (worldOf [mkEntry DT_REG "noext".toList (by decide)])
        "/data/".toList [] ["ljpeg".toList]).map Prod.fst = some [] := by
  decide

/-- C6, evaluated where it fails: the check is the bitwise `d_type & DT_DIR`,
which is non-zero for block devices (6) and sockets (12) as well as for
directories (4). An entry `a.ljpeg` of type block device or socket is skipped;
the same entry as regular file, symbolic link, FIFO, character device or
unknown type is returned. -/
theorem block_devices_and_sockets_are_skipped :
    DT_BLK ≠ DT_DIR ∧ DT_SOCK ≠ DT_DIR ∧
    (∀ t ∈ [DT_DIR, DT_BLK, DT_SOCK],
      (getFilesInDirectory (worldOf [mkEntry t "a.ljpeg".toList (by decide)])
        "/data/".toList [] ["ljpeg".toList]).map Prod.fst = some []) ∧
    (∀ t ∈ [DT_REG, DT_LNK, DT_FIFO, DT_CHR, DT_UNKNOWN],
      (getFilesInDirectory (worldOf [mkEntry t "a.ljpeg".toList (by decide)])
        "/data/".toList [] ["ljpeg".toList]).map Prod.fst = some ["/data/a.ljpeg".toList]) := by
  decide

/-- C7, evaluated where it fails: started without a directory argument, `main`
prints the message and the help text, but `exit;` does nothing, so the run
goes on to read `argv[1]` and ends in undefined behaviour, not in an exit.
Up to that point no directory was opened and no command was run. -/
theorem missing_argument_falls_through (w : World) :
    (main w ["convert".toList]).trace
      = [Event.cout "No arguments supplied!".toList,
         Event.cout "--help\n".toList,
         Event.cout "getDDSMNamesAndConvertToLJPEG1 <LJPEG_images_directory_name>".toList,
         Event.argvRead 1] ∧
    argvReads (main w ["convert".toList]).trace = [1] ∧
    opendirCalls (main w ["convert".toList]).trace = [] ∧
    systemCommands (main w ["convert".toList]).trace = [] ∧
    (main w ["convert".toList]).outcome = Outcome.undefined :=
  ⟨rfl, rfl, rfl, rfl, rfl⟩

set_option maxRecDepth 100000 in
/-- C5, evaluated where it fails: `/data/` holds `a.ljpeg`, the 206-byte
`longName` and `b.LJPEG`, so K = 3 paths match. The second command needs 226
bytes of the 100-byte array: the run reaches undefined behaviour after one
call of `system` and before any count is reported. -/
theorem long_path_stops_the_count :
    (getFilesInDirectory (worldOf crowdedDirectory)
        "/data/".toList [] ["ljpeg".toList]).map (fun r => r.1.length) = some 3 ∧
    (sprintfBytes ("/data/".toList ++ longName)).length = 226 ∧
    sprintfCommand ("/data/".toList ++ longName) = none ∧
    systemCommands (main (worldOf crowdedDirectory)
        ["convert".toList, "/data/".toList]).trace = ["./jpeg -d -s /data/a.ljpeg".toList] ∧
    reportedCounts (main (worldOf crowdedDirectory)
        ["convert".toList, "/data/".toList]).trace = [] ∧
    (main (worldOf crowdedDirectory)
        ["convert".toList, "/data/".toList]).outcome = Outcome.undefined := by
  decide

set_option maxRecDepth 100000 in
/-- C8, evaluated where it fails: with the directory argument `/data/` and the
single file `longName` in it, the command does not fit `command`; the run ends
in undefined behaviour, with no final count printed and no `return 0`. -/
theorem long_path_prevents_return (status : Nat → Int) :
    (main { opendir := fun _ => some [longEntry], status := status }
        ["convert".toList, "/data/".toList]).outcome = Outcome.undefined ∧
    reportedCounts
      (main { opendir := fun _ => some [longEntry], status := status }
        ["convert".toList, "/data/".toList]).trace = [] := by
  constructor <;> rfl

end DDSM
